import Mathlib

/-!
Verification of the FRIED-grid photoevaporation script `2disktest.py`.

The script's grid machinery operates on 1-D numpy arrays of floats.  We embed
the columns as lists of rationals; the order-theoretic behaviour of the code
(which value brackets a query, which row index is returned, which candidate is
nearest) does not depend on float rounding.  The numpy reductions `max`, `min`
and the first-index selection `numpy.where(column == v)[0][0]` are modelled by
executable list functions below.  Transcendental library calls of the source
(`numpy.power`, `numpy.log`, and the base-10 exponentiation) are external
collaborators and are modelled by function parameters, with the one property
the proofs need (positivity on positive bases) taken as an explicit hypothesis.
-/

/-- Model of `numpy.max` on a 1-D array: `none` on the empty array, where
numpy raises `ValueError`. -/
def npmax : List ℚ → Option ℚ
  | [] => none
  | x :: xs => some (xs.foldl max x)

/-- Model of `numpy.min` on a 1-D array: `none` on the empty array, where
numpy raises `ValueError`. -/
def npmin : List ℚ → Option ℚ
  | [] => none
  | x :: xs => some (xs.foldl min x)

/-- Model of `numpy.where(column == v)[0][0]` and of Python `list.index(v)`:
the index of the first occurrence of `v`, or the list's length when `v` is
absent. -/
def firstIdxOf {α : Type} [DecidableEq α] : List α → α → ℕ
  | [], _ => 0
  | x :: xs, v => if x = v then 0 else firstIdxOf xs v + 1

/-- The `try ... except ValueError` block of `find_indices` computing
`value_below`: the largest element of `column` strictly less than `val`,
falling back to `column.min()` when no element is below.  `none` only when
`column` is empty (the fallback `column.min()` itself raises). -/
def value_below (column : List ℚ) (val : ℚ) : Option ℚ :=
  match npmax (column.filter (fun c => c < val)) with
  | some v => some v
  | none => npmin column

/-- The second `try ... except ValueError` block of `find_indices` computing
`value_above`: the smallest element of `column` strictly greater than `val`,
falling back to `column.max()`. -/
def value_above (column : List ℚ) (val : ℚ) : Option ℚ :=
  match npmin (column.filter (fun c => val < c)) with
  | some v => some v
  | none => npmax column

/-- `find_indices(column, val)` from `2disktest.py` (lines 127-155): the pair
of first row indices holding `value_below` and `value_above`.  `none` models
the uncaught `ValueError` on an empty column. -/
def find_indices (column : List ℚ) (val : ℚ) : Option (ℕ × ℕ) :=
  match value_below column val, value_above column val with
  | some vb, some va => some (firstIdxOf column vb, firstIdxOf column va)
  | _, _ => none

/-- One row of the FRIED grid: the four working parameters taken from file
columns 0, 1, 2, 4 together with the `log10(Mdot)` value of file column 5.
The source keeps `FRIED_grid` (the 4 parameter columns) and `grid_log10Mdot`
separate but always indexes them by the same row number. -/
structure GridRow where
  stellar_mass : ℚ
  FUV : ℚ
  disk_mass : ℚ
  disk_radius : ℚ
  log10Mdot : ℚ
  deriving DecidableEq

instance : Inhabited GridRow := ⟨⟨0, 0, 0, 0, 0⟩⟩

/-- Column `FRIED_grid[:, 0]`. -/
def grid_stellar_masses (grid : List GridRow) : List ℚ :=
  grid.map (fun r => r.stellar_mass)

/-- Column `FRIED_grid[:, 1]`. -/
def grid_FUV (grid : List GridRow) : List ℚ :=
  grid.map (fun r => r.FUV)

/-- Column `FRIED_grid[:, 2]`. -/
def grid_disk_mass (grid : List GridRow) : List ℚ :=
  grid.map (fun r => r.disk_mass)

/-- Column `FRIED_grid[:, 3]`. -/
def grid_disk_radius (grid : List GridRow) : List ℚ :=
  grid.map (fun r => r.disk_radius)

/-- Column `grid[:, 5]`, the known `log10(Mdot)` values. -/
def grid_log10Mdot (grid : List GridRow) : List ℚ :=
  grid.map (fun r => r.log10Mdot)

/-- The 4-D parameter part of a grid row, one row of the 8x4 `subgrid`. -/
def FRIED_params (r : GridRow) : ℚ × ℚ × ℚ × ℚ :=
  (r.stellar_mass, r.FUV, r.disk_mass, r.disk_radius)

/-- The `indices_list` of `main` (lines 335-359): the 8 bracketing row
indices, two per parameter, in the source's fixed order.  `none` when any
`find_indices` call raises (empty grid). -/
def indices_list (grid : List GridRow) (xi : ℚ × ℚ × ℚ × ℚ) : Option (List ℕ) :=
  (find_indices (grid_stellar_masses grid) xi.1).bind (fun p1 =>
    (find_indices (grid_FUV grid) xi.2.1).bind (fun p2 =>
      (find_indices (grid_disk_mass grid) xi.2.2.1).bind (fun p3 =>
        (find_indices (grid_disk_radius grid) xi.2.2.2).map (fun p4 =>
          [p1.1, p1.2, p2.1, p2.2, p3.1, p3.2, p4.1, p4.2]))))

/-- The 8x4 `subgrid` assembled positionally from the full parameter rows at
the 8 bracketing indices (lines 332-352). -/
def subgrid (grid : List GridRow) (I : List ℕ) : List (ℚ × ℚ × ℚ × ℚ) :=
  I.map (fun i => FRIED_params (grid.getD i default))

/-- The `Mdot_values` fill loop of `main` (lines 355-361):
`for x in indices_list: Mdot_values[indices_list.index(x)] = grid_log10Mdot[x]`.
`Python list.index` returns the first occurrence, modelled by `firstIdxOf`;
`init` models the uninitialized buffer `numpy.ndarray(shape=(8,))`, whose
contents are arbitrary memory. -/
def mdot_fill (mdotcol : List ℚ) (I : List ℕ) (init : List ℚ) : List ℚ :=
  I.foldl (fun acc x => acc.set (firstIdxOf I x) (mdotcol.getD x 0)) init

/-- `Mdot_values` as assembled by the source for a given grid. -/
def Mdot_values (grid : List GridRow) (I : List ℕ) (init : List ℚ) : List ℚ :=
  mdot_fill (grid_log10Mdot grid) I init

/-- Squared Euclidean distance in the 4-D parameter space.  Nearest-neighbor
selection compares distances, and squared distance induces the same order as
Euclidean distance. -/
def sqDist (p q : ℚ × ℚ × ℚ × ℚ) : ℚ :=
  (p.1 - q.1) ^ 2 + (p.2.1 - q.2.1) ^ 2 + (p.2.2.1 - q.2.2.1) ^ 2 +
    (p.2.2.2 - q.2.2.2) ^ 2

/-- First minimum of a list together with its index (`none` on the empty
list): the selection kernel of nearest-neighbor interpolation. -/
def minWithIdx : List ℚ → Option (ℚ × ℕ)
  | [] => none
  | d :: ds =>
    match minWithIdx ds with
    | none => some (d, 0)
    | some (bv, bi) => if d ≤ bv then some (d, 0) else some (bv, bi + 1)

/-- Model of `scipy.interpolate.griddata(points, values, xi, method="nearest")`
for a single query point: the value attached to a point of `points` at
minimal Euclidean distance from `xi` (scipy's `NearestNDInterpolator`).
Ties resolve to the first such point. -/
def griddata_nearest (points : List (ℚ × ℚ × ℚ × ℚ)) (values : List ℚ)
    (xi : ℚ × ℚ × ℚ × ℚ) : Option ℚ :=
  match minWithIdx (points.map (fun p => sqDist p xi)) with
  | none => none
  | some (_, i) => some (values.getD i 0)

/-- The full Mass-Loss Estimator path of `main` (lines 332-365): bracket the
four parameters, assemble `subgrid` and `Mdot_values`, and run
nearest-neighbor interpolation at the query point `xi`.  `init` is the
uninitialized `Mdot_values` buffer. -/
def photoevap_Mdot (grid : List GridRow) (xi : ℚ × ℚ × ℚ × ℚ)
    (init : List ℚ) : Option ℚ :=
  match indices_list grid xi with
  | none => none
  | some I => griddata_nearest (subgrid grid I) (Mdot_values grid I init) xi

/-- `luminosity_fit` (lines 12-40), with `numpy.power` passed in as the
external collaborator `fpow` (its base and exponent arguments in that
order).  The branch structure and all constants are the source's. -/
def luminosity_fit (fpow : ℚ → ℚ → ℚ) (mass : ℚ) : ℚ :=
  if 0.12 < mass ∧ mass < 0.24 then 1.70294e16 * fpow mass 42.557
  else if 0.24 < mass ∧ mass < 0.56 then 9.11137e-9 * fpow mass 3.8845
  else if 0.56 < mass ∧ mass < 0.70 then 1.10021e-6 * fpow mass 12.237
  else if 0.70 < mass ∧ mass < 0.91 then 2.38690e-4 * fpow mass 27.199
  else if 0.91 < mass ∧ mass < 1.37 then 1.02477e-4 * fpow mass 18.465
  else if 1.37 < mass ∧ mass < 2.07 then 9.66362e-4 * fpow mass 11.410
  else if 2.07 < mass ∧ mass < 3.72 then 6.49335e-2 * fpow mass 5.6147
  else if 3.72 < mass ∧ mass < 10.0 then 6.99075e-1 * fpow mass 3.8058
  else if 10.0 < mass ∧ mass < 20.2 then 9.73664 * fpow mass 2.6620
  else if 20.2 < mass then 1.31175e2 * fpow mass 1.7974
  else 0

/-- Classification of an IEEE-754 float result. -/
inductive FloatClass
  | finite
  | infinite
  | nan
  deriving DecidableEq

/-- `radius_containing_mass` (lines 185-196), with `numpy.log` passed in as
the external collaborator `flog`:
`disk_characteristic_radius * log(1 / (1 - mass / total_disk_mass))`. -/
def radius_containing_mass (flog : ℚ → ℚ) (disk_radius total_disk_mass mass : ℚ) : ℚ :=
  disk_radius * flog (1 / (1 - mass / total_disk_mass))

/-- IEEE classification of the float computed by `radius_containing_mass`
for a positive finite characteristic radius: when `1 - mass/total` is
positive the log argument is a positive finite float and the result is
finite; when it is zero, `1/0` is `inf`, `log(inf)` is `inf` and the product
with a positive radius is `inf`; when it is negative, the log of a negative
float is `nan` and the product is `nan`. -/
def radius_containing_mass_class (total_disk_mass mass : ℚ) : FloatClass :=
  if 0 < 1 - mass / total_disk_mass then FloatClass.finite
  else if 1 - mass / total_disk_mass = 0 then FloatClass.infinite
  else FloatClass.nan

/-- The bright-star population of `main` (line 231): strict mass cut above
1.9 solar masses. -/
def bright_stars (stellar_masses : List ℚ) : List ℚ :=
  stellar_masses.filter (fun m => 1.9 < m)

/-- The small-star population of `main` (line 235): strict mass cut below
1.9 solar masses. -/
def small_stars (stellar_masses : List ℚ) : List ℚ :=
  stellar_masses.filter (fun m => m < 1.9)

/-- Disk masses assigned to the small stars (line 238):
`small_stars.disk_mass = 0.1 * small_stars.stellar_mass`. -/
def small_stars_disk_mass (stellar_masses : List ℚ) : List ℚ :=
  (small_stars stellar_masses).map (fun m => 0.1 * m)

/-- The accumulator `time_total_mass_loss = numpy.zeros(len(small_stars))`
(line 290). -/
def time_total_mass_loss_init (stellar_masses : List ℚ) : List ℚ :=
  List.replicate (small_stars stellar_masses).length 0

/-- `total_photoevap_mass_loss = 10 ** photoevap_Mdot * dt` (line 368), with
base-10 exponentiation passed in as the external collaborator `pow10`. -/
def total_photoevap_mass_loss (pow10 : ℚ → ℚ) (dt mdot : ℚ) : ℚ :=
  pow10 mdot * dt

/-- The inner loop over small stars for one bright star (lines 312-371):
entry `z` of the accumulator gains the mass lost by small star `z` to this
bright star.  `mdots` lists the estimated `log10(Mdot)` per small star. -/
def bright_star_pass (pow10 : ℚ → ℚ) (dt : ℚ) (mdots acc : List ℚ) : List ℚ :=
  List.zipWith (fun a mdot => a + total_photoevap_mass_loss pow10 dt mdot) acc mdots

/-- One timestep of the accumulation (the loop over bright stars,
lines 306-371): one pass per bright star. -/
def timestep_mass_loss (pow10 : ℚ → ℚ) (dt : ℚ) (mdotss : List (List ℚ))
    (acc : List ℚ) : List ℚ :=
  mdotss.foldl (fun a mdots => bright_star_pass pow10 dt mdots a) acc

/-- The whole run (the while loop, lines 293-390): fold the timesteps over
the accumulator started at `numpy.zeros(n)`, where `n` counts the small
stars.  Each step carries its `dt` and its per-bright-star rate lists. -/
def run_mass_loss (pow10 : ℚ → ℚ) (steps : List (ℚ × List (List ℚ))) (n : ℕ) : List ℚ :=
  steps.foldl (fun acc st => timestep_mass_loss pow10 st.1 st.2 acc) (List.replicate n 0)

/-- A concrete one-row FRIED grid (parameters 1, 10, 5, 50 with
log10 mass-loss rate -8), used to evaluate the estimator pipeline. -/
def exGrid1 : List GridRow := [⟨1, 10, 5, 50, -8⟩]

/-- A concrete query point for `exGrid1`. -/
def exQuery1 : ℚ × ℚ × ℚ × ℚ := (2, 3, 4, 5)

/-- A concrete two-row FRIED grid used to exhibit the `Mdot_values` fill
loop's behaviour on duplicated bracketing indices. -/
def exGrid2 : List GridRow := [⟨1, 10, 5, 50, -8⟩, ⟨2, 20, 6, 60, -4⟩]

/-- A query below every column of `exGrid2`, so that every `find_indices`
call returns the pair (0, 0) and all eight bracketing indices coincide. -/
def exQuery2 : ℚ × ℚ × ℚ × ℚ := (0, 5, 4, 40)

/-- A three-row grid in which two rows share their stellar-mass, disk-mass
and disk-radius column values but differ in FUV and in mass-loss rate. -/
def exGrid3 : List GridRow :=
  [⟨1, 10, 5, 50, -8⟩, ⟨1, 20, 5, 50, -6⟩, ⟨4, 15, 8, 80, -7⟩]

/-- `exGrid3` with its first two rows swapped. -/
def exGrid3Swapped : List GridRow :=
  [⟨1, 20, 5, 50, -6⟩, ⟨1, 10, 5, 50, -8⟩, ⟨4, 15, 8, 80, -7⟩]

/-- A query point strictly inside every column range of `exGrid3`. -/
def exQuery3 : ℚ × ℚ × ℚ × ℚ := (2, 12, 6, 60)

/-- An eight-row grid whose four parameter columns each have pairwise
distinct values and whose eight bracketing indices for `exQuery8` are
pairwise distinct. -/
def exGrid8 : List GridRow :=
  [⟨9, 1, 1, 1, -1⟩, ⟨11, 2, 2, 2, -2⟩, ⟨1, 99, 3, 3, -3⟩, ⟨2, 101, 4, 4, -4⟩,
    ⟨3, 3, 49, 5, -5⟩, ⟨4, 4, 51, 6, -6⟩, ⟨5, 5, 5, 499, -7⟩, ⟨6, 6, 6, 501, -8⟩]

/-- `exGrid8` with its first two rows swapped. -/
def exGrid8Swapped : List GridRow :=
  [⟨11, 2, 2, 2, -2⟩, ⟨9, 1, 1, 1, -1⟩, ⟨1, 99, 3, 3, -3⟩, ⟨2, 101, 4, 4, -4⟩,
    ⟨3, 3, 49, 5, -5⟩, ⟨4, 4, 51, 6, -6⟩, ⟨5, 5, 5, 499, -7⟩, ⟨6, 6, 6, 501, -8⟩]

/-- A query point bracketed by rows 0 and 1 in stellar mass, 2 and 3 in FUV,
4 and 5 in disk mass, and 6 and 7 in disk radius of `exGrid8`. -/
def exQuery8 : ℚ × ℚ × ℚ × ℚ := (10, 100, 50, 500)

/-! General lemmas about the list helpers. -/

theorem foldl_max_mem (xs : List ℚ) : ∀ x : ℚ, xs.foldl max x ∈ x :: xs := by
  induction xs with
  | nil => intro x; simp
  | cons y ys ih =>
    intro x
    have h := ih (max x y)
    rcases List.mem_cons.mp h with h1 | h1
    · rcases max_choice x y with h2 | h2 <;> rw [List.foldl_cons, h1, h2] <;> simp
    · simp only [List.foldl_cons]
      exact List.mem_cons_of_mem _ (List.mem_cons_of_mem _ h1)

theorem le_foldl_max (xs : List ℚ) : ∀ x y : ℚ, y ∈ x :: xs → y ≤ xs.foldl max x := by
  induction xs with
  | nil => intro x y hy; simp at hy; simp [hy]
  | cons z zs ih =>
    intro x y hy
    simp only [List.foldl_cons]
    rcases List.mem_cons.mp hy with rfl | hy
    · exact le_trans (le_max_left y z) (ih (max y z) _ (List.mem_cons_self _ _))
    · rcases List.mem_cons.mp hy with rfl | hy
      · exact le_trans (le_max_right x y) (ih (max x y) _ (List.mem_cons_self _ _))
      · exact ih (max x z) y (List.mem_cons_of_mem _ hy)

theorem foldl_min_mem (xs : List ℚ) : ∀ x : ℚ, xs.foldl min x ∈ x :: xs := by
  induction xs with
  | nil => intro x; simp
  | cons y ys ih =>
    intro x
    have h := ih (min x y)
    rcases List.mem_cons.mp h with h1 | h1
    · rcases min_choice x y with h2 | h2 <;> rw [List.foldl_cons, h1, h2] <;> simp
    · simp only [List.foldl_cons]
      exact List.mem_cons_of_mem _ (List.mem_cons_of_mem _ h1)

theorem foldl_min_le (xs : List ℚ) : ∀ x y : ℚ, y ∈ x :: xs → xs.foldl min x ≤ y := by
  induction xs with
  | nil => intro x y hy; simp at hy; simp [hy]
  | cons z zs ih =>
    intro x y hy
    simp only [List.foldl_cons]
    rcases List.mem_cons.mp hy with rfl | hy
    · exact le_trans (ih (min y z) _ (List.mem_cons_self _ _)) (min_le_left y z)
    · rcases List.mem_cons.mp hy with rfl | hy
      · exact le_trans (ih (min x y) _ (List.mem_cons_self _ _)) (min_le_right x y)
      · exact ih (min x z) y (List.mem_cons_of_mem _ hy)

theorem npmax_mem {l : List ℚ} {v : ℚ} (h : npmax l = some v) : v ∈ l := by
  cases l with
  | nil => simp [npmax] at h
  | cons x xs =>
    simp only [npmax, Option.some.injEq] at h
    exact h ▸ foldl_max_mem xs x

theorem le_npmax {l : List ℚ} {v : ℚ} (h : npmax l = some v) : ∀ y ∈ l, y ≤ v := by
  cases l with
  | nil => simp
  | cons x xs =>
    simp only [npmax, Option.some.injEq] at h
    intro y hy
    exact h ▸ le_foldl_max xs x y hy

theorem npmin_mem {l : List ℚ} {v : ℚ} (h : npmin l = some v) : v ∈ l := by
  cases l with
  | nil => simp [npmin] at h
  | cons x xs =>
    simp only [npmin, Option.some.injEq] at h
    exact h ▸ foldl_min_mem xs x

theorem npmin_le {l : List ℚ} {v : ℚ} (h : npmin l = some v) : ∀ y ∈ l, v ≤ y := by
  cases l with
  | nil => simp
  | cons x xs =>
    simp only [npmin, Option.some.injEq] at h
    intro y hy
    exact h ▸ foldl_min_le xs x y hy

theorem npmax_eq_none_iff {l : List ℚ} : npmax l = none ↔ l = [] := by
  cases l <;> simp [npmax]

theorem npmin_eq_none_iff {l : List ℚ} : npmin l = none ↔ l = [] := by
  cases l <;> simp [npmin]

theorem npmax_perm {l l2 : List ℚ} (h : List.Perm l l2) : npmax l = npmax l2 := by
  cases h1 : npmax l with
  | none =>
    rw [npmax_eq_none_iff] at h1
    subst h1
    have : l2 = [] := h.symm.eq_nil
    simp [this, npmax]
  | some v =>
    cases h2 : npmax l2 with
    | none =>
      rw [npmax_eq_none_iff] at h2
      subst h2
      have : l = [] := h.eq_nil
      simp [this, npmax] at h1
    | some w =>
      have hv : v ∈ l2 := h.mem_iff.mp (npmax_mem h1)
      have hw : w ∈ l := h.mem_iff.mpr (npmax_mem h2)
      exact congrArg some (le_antisymm (le_npmax h2 v hv) (le_npmax h1 w hw))

theorem npmin_perm {l l2 : List ℚ} (h : List.Perm l l2) : npmin l = npmin l2 := by
  cases h1 : npmin l with
  | none =>
    rw [npmin_eq_none_iff] at h1
    subst h1
    have : l2 = [] := h.symm.eq_nil
    simp [this, npmin]
  | some v =>
    cases h2 : npmin l2 with
    | none =>
      rw [npmin_eq_none_iff] at h2
      subst h2
      have : l = [] := h.eq_nil
      simp [this, npmin] at h1
    | some w =>
      have hv : v ∈ l2 := h.mem_iff.mp (npmin_mem h1)
      have hw : w ∈ l := h.mem_iff.mpr (npmin_mem h2)
      exact congrArg some (le_antisymm (npmin_le h1 w hw) (npmin_le h2 v hv))

theorem firstIdxOf_lt_length {α : Type} [DecidableEq α] {l : List α} {v : α}
    (h : v ∈ l) : firstIdxOf l v < l.length := by
  induction l with
  | nil => simp at h
  | cons x xs ih =>
    by_cases hx : x = v
    · simp [firstIdxOf, hx]
    · rcases List.mem_cons.mp h with h1 | h1
      · exact absurd h1.symm hx
      · simp only [firstIdxOf, hx, if_false, List.length_cons]
        exact Nat.succ_lt_succ (ih h1)

theorem getD_firstIdxOf {α : Type} [DecidableEq α] {l : List α} {v : α}
    (h : v ∈ l) (d : α) : l.getD (firstIdxOf l v) d = v := by
  induction l with
  | nil => simp at h
  | cons x xs ih =>
    by_cases hx : x = v
    · simp [firstIdxOf, hx]
    · rcases List.mem_cons.mp h with h1 | h1
      · exact absurd h1.symm hx
      · simp only [firstIdxOf, hx, if_false]
        simpa using ih h1

theorem firstIdxOf_first {α : Type} [DecidableEq α] (l : List α) (v : α) (d : α) :
    ∀ k, k < firstIdxOf l v → l.getD k d ≠ v := by
  induction l with
  | nil => simp [firstIdxOf]
  | cons x xs ih =>
    intro k hk
    by_cases hx : x = v
    · simp [firstIdxOf, hx] at hk
    · simp only [firstIdxOf, hx, if_false] at hk
      cases k with
      | zero => simpa using hx
      | succ m => simpa using ih m (Nat.lt_of_succ_lt_succ hk)

theorem getD_mem {α : Type} {l : List α} {k : ℕ} (h : k < l.length) (d : α) :
    l.getD k d ∈ l := by
  induction l generalizing k with
  | nil => simp at h
  | cons x xs ih =>
    cases k with
    | zero => simp
    | succ m =>
      simp only [List.length_cons] at h
      simpa using Or.inr (ih (Nat.lt_of_succ_lt_succ h))

theorem getD_default_irrel {α : Type} {l : List α} {k : ℕ} (h : k < l.length)
    (d e : α) : l.getD k d = l.getD k e := by
  induction l generalizing k with
  | nil => simp at h
  | cons x xs ih =>
    cases k with
    | zero => simp
    | succ m =>
      simp only [List.length_cons] at h
      simpa using ih (Nat.lt_of_succ_lt_succ h)

theorem getD_map {α β : Type} (f : α → β) (l : List α) {k : ℕ}
    (h : k < l.length) (da : α) (db : β) :
    (l.map f).getD k db = f (l.getD k da) := by
  induction l generalizing k with
  | nil => simp at h
  | cons x xs ih =>
    cases k with
    | zero => simp
    | succ m =>
      simp only [List.length_cons] at h
      simpa using ih (Nat.lt_of_succ_lt_succ h)

theorem getD_inj_of_nodup {α : Type} {l : List α} (hnd : l.Nodup) {i j : ℕ}
    (hi : i < l.length) (hj : j < l.length) (d : α)
    (h : l.getD i d = l.getD j d) : i = j := by
  induction l generalizing i j with
  | nil => simp at hi
  | cons x xs ih =>
    rcases List.nodup_cons.mp hnd with ⟨hx, hxs⟩
    cases i with
    | zero =>
      cases j with
      | zero => rfl
      | succ m =>
        simp only [List.length_cons] at hj
        simp only [List.getD_cons_zero, List.getD_cons_succ] at h
        exact absurd (h ▸ getD_mem (Nat.lt_of_succ_lt_succ hj) d) hx
    | succ m =>
      cases j with
      | zero =>
        simp only [List.length_cons] at hi
        simp only [List.getD_cons_zero, List.getD_cons_succ] at h
        exact absurd (h ▸ getD_mem (Nat.lt_of_succ_lt_succ hi) d) hx
      | succ p =>
        simp only [List.length_cons] at hi hj
        simp only [List.getD_cons_succ] at h
        exact congrArg Nat.succ
          (ih hxs (Nat.lt_of_succ_lt_succ hi) (Nat.lt_of_succ_lt_succ hj) h)

/-! Specification lemmas for the bracketing helpers. -/

theorem value_below_isSome {column : List ℚ} (h : column ≠ []) (val : ℚ) :
    ∃ vb, value_below column val = some vb := by
  unfold value_below
  cases hm : npmax (column.filter (fun c => c < val)) with
  | some v => exact ⟨v, rfl⟩
  | none =>
    cases hn : npmin column with
    | some w => exact ⟨w, rfl⟩
    | none => exact absurd (npmin_eq_none_iff.mp hn) h

theorem value_above_isSome {column : List ℚ} (h : column ≠ []) (val : ℚ) :
    ∃ va, value_above column val = some va := by
  unfold value_above
  cases hm : npmin (column.filter (fun c => val < c)) with
  | some v => exact ⟨v, rfl⟩
  | none =>
    cases hn : npmax column with
    | some w => exact ⟨w, rfl⟩
    | none => exact absurd (npmax_eq_none_iff.mp hn) h

theorem value_below_mem {column : List ℚ} {val vb : ℚ}
    (h : value_below column val = some vb) : vb ∈ column := by
  unfold value_below at h
  cases hm : npmax (column.filter (fun c => c < val)) with
  | some v =>
    rw [hm] at h
    cases h
    exact List.mem_of_mem_filter (npmax_mem hm)
  | none =>
    rw [hm] at h
    exact npmin_mem h

theorem value_above_mem {column : List ℚ} {val va : ℚ}
    (h : value_above column val = some va) : va ∈ column := by
  unfold value_above at h
  cases hm : npmin (column.filter (fun c => val < c)) with
  | some v =>
    rw [hm] at h
    cases h
    exact List.mem_of_mem_filter (npmin_mem hm)
  | none =>
    rw [hm] at h
    exact npmax_mem h

theorem value_below_spec {column : List ℚ} {val vb : ℚ}
    (h : value_below column val = some vb) :
    ((∃ c ∈ column, c < val) → vb < val ∧ ∀ c ∈ column, c < val → c ≤ vb) ∧
      ((∀ c ∈ column, ¬c < val) → ∀ c ∈ column, vb ≤ c) := by
  unfold value_below at h
  cases hm : npmax (column.filter (fun c => c < val)) with
  | some v =>
    rw [hm] at h
    cases h
    have hvmem := npmax_mem hm
    have hvfilt := List.of_mem_filter hvmem
    have hvlt : vb < val := by simpa using hvfilt
    refine ⟨fun _ => ⟨hvlt, fun c hc hclt => ?_⟩, fun hnone => ?_⟩
    · exact le_npmax hm c (List.mem_filter.mpr ⟨hc, by simpa using hclt⟩)
    · exact absurd hvlt (hnone vb (List.mem_of_mem_filter hvmem))
  | none =>
    rw [hm] at h
    have hempty : column.filter (fun c => c < val) = [] := npmax_eq_none_iff.mp hm
    refine ⟨fun hex => ?_, fun _ c hc => npmin_le h c hc⟩
    rcases hex with ⟨c, hc, hclt⟩
    have : c ∈ column.filter (fun c => c < val) :=
      List.mem_filter.mpr ⟨hc, by simpa using hclt⟩
    simp [hempty] at this

theorem value_above_spec {column : List ℚ} {val va : ℚ}
    (h : value_above column val = some va) :
    ((∃ c ∈ column, val < c) → val < va ∧ ∀ c ∈ column, val < c → va ≤ c) ∧
      ((∀ c ∈ column, ¬val < c) → ∀ c ∈ column, c ≤ va) := by
  unfold value_above at h
  cases hm : npmin (column.filter (fun c => val < c)) with
  | some v =>
    rw [hm] at h
    cases h
    have hvmem := npmin_mem hm
    have hvfilt := List.of_mem_filter hvmem
    have hvlt : val < va := by simpa using hvfilt
    refine ⟨fun _ => ⟨hvlt, fun c hc hclt => ?_⟩, fun hnone => ?_⟩
    · exact npmin_le hm c (List.mem_filter.mpr ⟨hc, by simpa using hclt⟩)
    · exact absurd hvlt (hnone va (List.mem_of_mem_filter hvmem))
  | none =>
    rw [hm] at h
    have hempty : column.filter (fun c => val < c) = [] := npmin_eq_none_iff.mp hm
    refine ⟨fun hex => ?_, fun _ c hc => le_npmax h c hc⟩
    rcases hex with ⟨c, hc, hclt⟩
    have : c ∈ column.filter (fun c => val < c) :=
      List.mem_filter.mpr ⟨hc, by simpa using hclt⟩
    simp [hempty] at this

theorem find_indices_eq_some {column : List ℚ} (h : column ≠ []) (val : ℚ) :
    ∃ vb va, value_below column val = some vb ∧ value_above column val = some va ∧
      find_indices column val = some (firstIdxOf column vb, firstIdxOf column va) := by
  rcases value_below_isSome h val with ⟨vb, hvb⟩
  rcases value_above_isSome h val with ⟨va, hva⟩
  exact ⟨vb, va, hvb, hva, by simp [find_indices, hvb, hva]⟩

theorem find_indices_inv {column : List ℚ} {val : ℚ} {i j : ℕ}
    (h : find_indices column val = some (i, j)) :
    ∃ vb va, value_below column val = some vb ∧ value_above column val = some va ∧
      i = firstIdxOf column vb ∧ j = firstIdxOf column va := by
  unfold find_indices at h
  cases hvb : value_below column val with
  | none => rw [hvb] at h; simp at h
  | some vb =>
    cases hva : value_above column val with
    | none => rw [hvb, hva] at h; simp at h
    | some va =>
      rw [hvb, hva] at h
      simp only [Option.some.injEq, Prod.mk.injEq] at h
      exact ⟨vb, va, rfl, rfl, h.1.symm, h.2.symm⟩

theorem value_below_perm {l l2 : List ℚ} (h : List.Perm l l2) (val : ℚ) :
    value_below l val = value_below l2 val := by
  unfold value_below
  rw [npmax_perm (h.filter (fun c => decide (c < val))), npmin_perm h]

theorem value_above_perm {l l2 : List ℚ} (h : List.Perm l l2) (val : ℚ) :
    value_above l val = value_above l2 val := by
  unfold value_above
  rw [npmin_perm (h.filter (fun c => decide (val < c))), npmax_perm h]

/-- Claim C2: on a non-empty column, `find_indices` returns indices of the
largest value strictly below and the smallest value strictly above the query,
falling back to the column minimum (resp. maximum) when no value is strictly
below (resp. above), and resolving ties to the first matching row index. -/
theorem find_indices_bracket_spec (column : List ℚ) (val : ℚ) (hne : column ≠ []) :
    ∃ i j, find_indices column val = some (i, j) ∧
      i < column.length ∧ j < column.length ∧
      ((∃ c ∈ column, c < val) →
        column.getD i 0 < val ∧ ∀ c ∈ column, c < val → c ≤ column.getD i 0) ∧
      ((∀ c ∈ column, ¬c < val) → ∀ c ∈ column, column.getD i 0 ≤ c) ∧
      ((∃ c ∈ column, val < c) →
        val < column.getD j 0 ∧ ∀ c ∈ column, val < c → column.getD j 0 ≤ c) ∧
      ((∀ c ∈ column, ¬val < c) → ∀ c ∈ column, c ≤ column.getD j 0) ∧
      (∀ k, k < i → column.getD k 0 ≠ column.getD i 0) ∧
      (∀ k, k < j → column.getD k 0 ≠ column.getD j 0) := by
  rcases find_indices_eq_some hne val with ⟨vb, va, hvb, hva, hfi⟩
  have hvbmem := value_below_mem hvb
  have hvamem := value_above_mem hva
  have hgi : column.getD (firstIdxOf column vb) 0 = vb := getD_firstIdxOf hvbmem 0
  have hgj : column.getD (firstIdxOf column va) 0 = va := getD_firstIdxOf hvamem 0
  refine ⟨firstIdxOf column vb, firstIdxOf column va, hfi,
    firstIdxOf_lt_length hvbmem, firstIdxOf_lt_length hvamem, ?_, ?_, ?_, ?_, ?_, ?_⟩
  · rw [hgi]; exact (value_below_spec hvb).1
  · rw [hgi]; exact (value_below_spec hvb).2
  · rw [hgj]; exact (value_above_spec hva).1
  · rw [hgj]; exact (value_above_spec hva).2
  · rw [hgi]; exact fun k hk => firstIdxOf_first column vb 0 k hk
  · rw [hgj]; exact fun k hk => firstIdxOf_first column va 0 k hk

/-- Witness for C2 on the concrete column `[1, 3, 2]` with query `5/2`. -/
theorem find_indices_bracket_spec_witness :
    ∃ i j, find_indices [(1 : ℚ), 3, 2] (5/2) = some (i, j) ∧
      i < [(1 : ℚ), 3, 2].length ∧ j < [(1 : ℚ), 3, 2].length ∧
      ((∃ c ∈ [(1 : ℚ), 3, 2], c < 5/2) →
        [(1 : ℚ), 3, 2].getD i 0 < 5/2 ∧
          ∀ c ∈ [(1 : ℚ), 3, 2], c < 5/2 → c ≤ [(1 : ℚ), 3, 2].getD i 0) ∧
      ((∀ c ∈ [(1 : ℚ), 3, 2], ¬c < 5/2) →
        ∀ c ∈ [(1 : ℚ), 3, 2], [(1 : ℚ), 3, 2].getD i 0 ≤ c) ∧
      ((∃ c ∈ [(1 : ℚ), 3, 2], 5/2 < c) →
        5/2 < [(1 : ℚ), 3, 2].getD j 0 ∧
          ∀ c ∈ [(1 : ℚ), 3, 2], 5/2 < c → [(1 : ℚ), 3, 2].getD j 0 ≤ c) ∧
      ((∀ c ∈ [(1 : ℚ), 3, 2], ¬(5 : ℚ)/2 < c) →
        ∀ c ∈ [(1 : ℚ), 3, 2], c ≤ [(1 : ℚ), 3, 2].getD j 0) ∧
      (∀ k, k < i → [(1 : ℚ), 3, 2].getD k 0 ≠ [(1 : ℚ), 3, 2].getD i 0) ∧
      (∀ k, k < j → [(1 : ℚ), 3, 2].getD k 0 ≠ [(1 : ℚ), 3, 2].getD j 0) :=
  find_indices_bracket_spec [(1 : ℚ), 3, 2] (5/2) (by decide)

/-- Claim C7: on a single-element column, `find_indices` returns index 0 for
both brackets for every query value, without raising. -/
theorem find_indices_singleton (c val : ℚ) : find_indices [c] val = some (0, 0) := by
  by_cases h1 : c < val <;> by_cases h2 : val < c <;>
    simp [find_indices, value_below, value_above, npmax, npmin, firstIdxOf,
      List.filter_cons, h1, h2]

/-- Claim C9: `find_indices` is total exactly on non-empty columns: the empty
column makes even the fallback branches raise (modelled as `none`), and any
non-empty column yields a result. -/
theorem find_indices_total_iff_nonempty (column : List ℚ) (val : ℚ) :
    (column = [] → find_indices column val = none) ∧
      (column ≠ [] → (find_indices column val).isSome) := by
  constructor
  · rintro rfl; rfl
  · intro hne
    rcases find_indices_eq_some hne val with ⟨vb, va, -, -, hfi⟩
    simp [hfi]

/-- Witness for C9: the empty column raises, the column `[2]` does not. -/
theorem find_indices_total_iff_nonempty_witness :
    find_indices [] (1 : ℚ) = none ∧ (find_indices [(2 : ℚ)] 1).isSome :=
  ⟨(find_indices_total_iff_nonempty [] 1).1 rfl,
    (find_indices_total_iff_nonempty [(2 : ℚ)] 1).2 (by decide)⟩

/-- Counterexample to claim C4 as stated: above the top of the last bounded
open interval (20.2) the code does not return zero; the tenth branch
`20.2 < mass` returns `1.31175E2 * numpy.power(mass, 1.7974)`, a positive
float.  Any model of `numpy.power` is positive at base 21; the constant
function 1 exhibits this. -/
theorem luminosity_fit_above_top_interval :
    luminosity_fit (fun _ _ => (1 : ℚ)) 21 ≠ 0 := by
  norm_num [luminosity_fit]

set_option maxHeartbeats 1600000 in
/-- Claim C4 amended: `luminosity_fit` maps mass through ten disjoint open
power-law intervals (nine bounded ones plus the unbounded interval above
20.2) and returns zero exactly outside all ten: at masses at or below 0.12
and at the nine internal boundary points.  `fpow` models `numpy.power`,
positive on positive bases. -/
theorem luminosity_fit_zero_iff (fpow : ℚ → ℚ → ℚ)
    (hpos : ∀ b e : ℚ, 0 < b → 0 < fpow b e) (mass : ℚ) :
    luminosity_fit fpow mass = 0 ↔
      mass ≤ 0.12 ∨ mass = 0.24 ∨ mass = 0.56 ∨ mass = 0.70 ∨ mass = 0.91 ∨
        mass = 1.37 ∨ mass = 2.07 ∨ mass = 3.72 ∨ mass = 10.0 ∨ mass = 20.2 := by
  rw [luminosity_fit]
  by_cases h1 : 0.12 < mass ∧ mass < 0.24
  · rw [if_pos h1]
    exact iff_of_false (ne_of_gt (mul_pos (by norm_num) (hpos _ _ (by linarith [h1.1]))))
      (by rintro (h | h | h | h | h | h | h | h | h | h) <;> linarith [h1.1, h1.2])
  rw [if_neg h1]
  by_cases h2 : 0.24 < mass ∧ mass < 0.56
  · rw [if_pos h2]
    exact iff_of_false (ne_of_gt (mul_pos (by norm_num) (hpos _ _ (by linarith [h2.1]))))
      (by rintro (h | h | h | h | h | h | h | h | h | h) <;> linarith [h2.1, h2.2])
  rw [if_neg h2]
  by_cases h3 : 0.56 < mass ∧ mass < 0.70
  · rw [if_pos h3]
    exact iff_of_false (ne_of_gt (mul_pos (by norm_num) (hpos _ _ (by linarith [h3.1]))))
      (by rintro (h | h | h | h | h | h | h | h | h | h) <;> linarith [h3.1, h3.2])
  rw [if_neg h3]
  by_cases h4 : 0.70 < mass ∧ mass < 0.91
  · rw [if_pos h4]
    exact iff_of_false (ne_of_gt (mul_pos (by norm_num) (hpos _ _ (by linarith [h4.1]))))
      (by rintro (h | h | h | h | h | h | h | h | h | h) <;> linarith [h4.1, h4.2])
  rw [if_neg h4]
  by_cases h5 : 0.91 < mass ∧ mass < 1.37
  · rw [if_pos h5]
    exact iff_of_false (ne_of_gt (mul_pos (by norm_num) (hpos _ _ (by linarith [h5.1]))))
      (by rintro (h | h | h | h | h | h | h | h | h | h) <;> linarith [h5.1, h5.2])
  rw [if_neg h5]
  by_cases h6 : 1.37 < mass ∧ mass < 2.07
  · rw [if_pos h6]
    exact iff_of_false (ne_of_gt (mul_pos (by norm_num) (hpos _ _ (by linarith [h6.1]))))
      (by rintro (h | h | h | h | h | h | h | h | h | h) <;> linarith [h6.1, h6.2])
  rw [if_neg h6]
  by_cases h7 : 2.07 < mass ∧ mass < 3.72
  · rw [if_pos h7]
    exact iff_of_false (ne_of_gt (mul_pos (by norm_num) (hpos _ _ (by linarith [h7.1]))))
      (by rintro (h | h | h | h | h | h | h | h | h | h) <;> linarith [h7.1, h7.2])
  rw [if_neg h7]
  by_cases h8 : 3.72 < mass ∧ mass < 10.0
  · rw [if_pos h8]
    exact iff_of_false (ne_of_gt (mul_pos (by norm_num) (hpos _ _ (by linarith [h8.1]))))
      (by rintro (h | h | h | h | h | h | h | h | h | h) <;> linarith [h8.1, h8.2])
  rw [if_neg h8]
  by_cases h9 : 10.0 < mass ∧ mass < 20.2
  · rw [if_pos h9]
    exact iff_of_false (ne_of_gt (mul_pos (by norm_num) (hpos _ _ (by linarith [h9.1]))))
      (by rintro (h | h | h | h | h | h | h | h | h | h) <;> linarith [h9.1, h9.2])
  rw [if_neg h9]
  by_cases h10 : (20.2 : ℚ) < mass
  · rw [if_pos h10]
    exact iff_of_false (ne_of_gt (mul_pos (by norm_num) (hpos _ _ (by linarith))))
      (by rintro (h | h | h | h | h | h | h | h | h | h) <;> linarith)
  rw [if_neg h10]
  refine iff_of_true rfl ?_
  by_cases hm : mass ≤ 0.12
  · exact Or.inl hm
  push_neg at hm
  have k1 : (0.24 : ℚ) ≤ mass := by
    rcases not_and_or.mp h1 with h | h
    · exact absurd hm h
    · exact not_lt.mp h
  rcases eq_or_lt_of_le k1 with he | hlt1
  · exact Or.inr (Or.inl he.symm)
  have k2 : (0.56 : ℚ) ≤ mass := by
    rcases not_and_or.mp h2 with h | h
    · exact absurd hlt1 h
    · exact not_lt.mp h
  rcases eq_or_lt_of_le k2 with he | hlt2
  · exact Or.inr (Or.inr (Or.inl he.symm))
  have k3 : (0.70 : ℚ) ≤ mass := by
    rcases not_and_or.mp h3 with h | h
    · exact absurd hlt2 h
    · exact not_lt.mp h
  rcases eq_or_lt_of_le k3 with he | hlt3
  · exact Or.inr (Or.inr (Or.inr (Or.inl he.symm)))
  have k4 : (0.91 : ℚ) ≤ mass := by
    rcases not_and_or.mp h4 with h | h
    · exact absurd hlt3 h
    · exact not_lt.mp h
  rcases eq_or_lt_of_le k4 with he | hlt4
  · exact Or.inr (Or.inr (Or.inr (Or.inr (Or.inl he.symm))))
  have k5 : (1.37 : ℚ) ≤ mass := by
    rcases not_and_or.mp h5 with h | h
    · exact absurd hlt4 h
    · exact not_lt.mp h
  rcases eq_or_lt_of_le k5 with he | hlt5
  · exact Or.inr (Or.inr (Or.inr (Or.inr (Or.inr (Or.inl he.symm)))))
  have k6 : (2.07 : ℚ) ≤ mass := by
    rcases not_and_or.mp h6 with h | h
    · exact absurd hlt5 h
    · exact not_lt.mp h
  rcases eq_or_lt_of_le k6 with he | hlt6
  · exact Or.inr (Or.inr (Or.inr (Or.inr (Or.inr (Or.inr (Or.inl he.symm))))))
  have k7 : (3.72 : ℚ) ≤ mass := by
    rcases not_and_or.mp h7 with h | h
    · exact absurd hlt6 h
    · exact not_lt.mp h
  rcases eq_or_lt_of_le k7 with he | hlt7
  · exact Or.inr (Or.inr (Or.inr (Or.inr (Or.inr (Or.inr (Or.inr (Or.inl he.symm)))))))
  have k8 : (10.0 : ℚ) ≤ mass := by
    rcases not_and_or.mp h8 with h | h
    · exact absurd hlt7 h
    · exact not_lt.mp h
  rcases eq_or_lt_of_le k8 with he | hlt8
  · exact Or.inr (Or.inr (Or.inr (Or.inr (Or.inr (Or.inr (Or.inr (Or.inr (Or.inl he.symm))))))))
  have k9 : (20.2 : ℚ) ≤ mass := by
    rcases not_and_or.mp h9 with h | h
    · exact absurd hlt8 h
    · exact not_lt.mp h
  have k10 : mass ≤ (20.2 : ℚ) := not_lt.mp h10
  exact Or.inr (Or.inr (Or.inr (Or.inr (Or.inr (Or.inr (Or.inr (Or.inr (Or.inr
    (le_antisymm k10 k9)))))))))

/-- Witness for the amended C4: on the boundary mass 0.24 the fit returns
zero (for the positive power model constantly 1). -/
theorem luminosity_fit_zero_iff_witness :
    luminosity_fit (fun _ _ => (1 : ℚ)) 0.24 = 0 :=
  (luminosity_fit_zero_iff (fun _ _ => 1) (fun _ _ _ => by norm_num) 0.24).mpr
    (by norm_num)

/-- Claim C6: `radius_containing_mass` computes the exponential-profile
inversion `R_char * log(1 / (1 - m_enc/M_total))` for positive radius and
total mass and `0 <= m_enc < M_total`, where the IEEE result is a finite
float, and for `m_enc >= M_total` the IEEE result is non-finite (`inf` at
equality from the division by zero, `nan` beyond it from the log of a
negative number).  `flog` models `numpy.log`. -/
theorem radius_containing_mass_spec (flog : ℚ → ℚ) (Rc M m : ℚ)
    (_hR : 0 < Rc) (hM : 0 < M) :
    (0 ≤ m → m < M →
      radius_containing_mass flog Rc M m = Rc * flog (1 / (1 - m / M)) ∧
        radius_containing_mass_class M m = FloatClass.finite) ∧
      (M ≤ m → radius_containing_mass_class M m ≠ FloatClass.finite) := by
  constructor
  · intro hm0 hmM
    refine ⟨rfl, ?_⟩
    have hdiv : m / M < 1 := (div_lt_one hM).mpr hmM
    have hpos : 0 < 1 - m / M := by linarith
    simp [radius_containing_mass_class, hpos]
  · intro hMm
    have hdiv : 1 ≤ m / M := (le_div_iff₀ hM).mpr (by linarith)
    have hnonpos : ¬(0 < 1 - m / M) := by
      intro h
      linarith
    rcases eq_or_lt_of_le hdiv with he | hlt
    · have hz : 1 - m / M = 0 := by linarith [he]
      simp [radius_containing_mass_class, hnonpos, hz]
    · have hz : ¬(1 - m / M = 0) := by
        intro h
        linarith
      simp [radius_containing_mass_class, hnonpos, hz]

/-- Witness for C6 at `R_char = 2`, `M_total = 3`, `m_enc = 1` (finite) and
`m_enc = 5` (non-finite). -/
theorem radius_containing_mass_spec_witness :
    radius_containing_mass (fun x => x) 2 3 1 = 2 * ((1 : ℚ) / (1 - 1 / 3)) ∧
      radius_containing_mass_class 3 1 = FloatClass.finite ∧
      radius_containing_mass_class 3 5 ≠ FloatClass.finite :=
  ⟨((radius_containing_mass_spec (fun x => x) 2 3 1 (by norm_num) (by norm_num)).1
      (by norm_num) (by norm_num)).1,
    ((radius_containing_mass_spec (fun x => x) 2 3 1 (by norm_num) (by norm_num)).1
      (by norm_num) (by norm_num)).2,
    (radius_containing_mass_spec (fun x => x) 2 3 5 (by norm_num) (by norm_num)).2
      (by norm_num)⟩

/-- Claim C8: a star of exactly 1.9 solar masses passes neither the strict
bright-star cut (`mass > 1.9`) nor the strict small-star cut (`mass < 1.9`),
so it belongs to neither population: it receives no disk mass or radius (the
disk attributes are assigned over `small_stars` only), appears in no
bright-star FUV loop, and owns no slot of the accumulator
`time_total_mass_loss`, which has one entry per small star. -/
theorem mass_cut_excludes_boundary (stellar_masses : List ℚ) :
    (1.9 : ℚ) ∉ bright_stars stellar_masses ∧
      (1.9 : ℚ) ∉ small_stars stellar_masses ∧
      (time_total_mass_loss_init stellar_masses).length =
        (small_stars stellar_masses).length := by
  refine ⟨?_, ?_, by simp [time_total_mass_loss_init]⟩
  · intro h
    have := List.of_mem_filter h
    simp at this
  · intro h
    have := List.of_mem_filter h
    simp at this

theorem bright_star_pass_length (pow10 : ℚ → ℚ) (dt : ℚ) (mdots acc : List ℚ)
    (h : acc.length ≤ mdots.length) :
    (bright_star_pass pow10 dt mdots acc).length = acc.length := by
  simp only [bright_star_pass, List.length_zipWith]
  omega

theorem bright_star_pass_mono (pow10 : ℚ → ℚ) (hpos : ∀ x, 0 < pow10 x)
    (dt : ℚ) (hdt : 0 < dt) (mdots acc : List ℚ) (h : acc.length ≤ mdots.length) :
    ∀ k, acc.getD k 0 ≤ (bright_star_pass pow10 dt mdots acc).getD k 0 := by
  induction acc generalizing mdots with
  | nil => intro k; simp [bright_star_pass]
  | cons a as ih =>
    intro k
    cases mdots with
    | nil => simp at h
    | cons m ms =>
      cases k with
      | zero =>
        have hp : 0 < pow10 m * dt := mul_pos (hpos m) hdt
        simp only [bright_star_pass, total_photoevap_mass_loss,
          List.zipWith_cons_cons, List.getD_cons_zero]
        linarith
      | succ p =>
        simp only [bright_star_pass, total_photoevap_mass_loss,
          List.zipWith_cons_cons, List.getD_cons_succ] at ih ⊢
        exact ih ms (by simpa using h) p

theorem timestep_mass_loss_length (pow10 : ℚ → ℚ) (dt : ℚ)
    (mdotss : List (List ℚ)) (acc : List ℚ)
    (h : ∀ mdots ∈ mdotss, acc.length ≤ mdots.length) :
    (timestep_mass_loss pow10 dt mdotss acc).length = acc.length := by
  induction mdotss generalizing acc with
  | nil => rfl
  | cons ms mss ih =>
    have h1 : acc.length ≤ ms.length := h ms (List.mem_cons_self _ _)
    have hlen := bright_star_pass_length pow10 dt ms acc h1
    have heq : timestep_mass_loss pow10 dt (ms :: mss) acc
        = timestep_mass_loss pow10 dt mss (bright_star_pass pow10 dt ms acc) := rfl
    rw [heq, ih (bright_star_pass pow10 dt ms acc)
      (fun md hmd => by rw [hlen]; exact h md (List.mem_cons_of_mem _ hmd)), hlen]

theorem timestep_mass_loss_mono (pow10 : ℚ → ℚ) (hpos : ∀ x, 0 < pow10 x)
    (dt : ℚ) (hdt : 0 < dt) (mdotss : List (List ℚ)) (acc : List ℚ)
    (h : ∀ mdots ∈ mdotss, acc.length ≤ mdots.length) :
    ∀ k, acc.getD k 0 ≤ (timestep_mass_loss pow10 dt mdotss acc).getD k 0 := by
  induction mdotss generalizing acc with
  | nil => intro k; exact le_refl _
  | cons ms mss ih =>
    intro k
    have h1 : acc.length ≤ ms.length := h ms (List.mem_cons_self _ _)
    have hlen := bright_star_pass_length pow10 dt ms acc h1
    have step := bright_star_pass_mono pow10 hpos dt hdt ms acc h1 k
    have rest := ih (bright_star_pass pow10 dt ms acc)
      (fun md hmd => by rw [hlen]; exact h md (List.mem_cons_of_mem _ hmd)) k
    exact le_trans step rest

theorem getD_replicate_zero (n k : ℕ) : (List.replicate n (0 : ℚ)).getD k 0 = 0 := by
  induction n generalizing k with
  | zero => simp
  | succ m ih =>
    cases k with
    | zero => simp [List.replicate]
    | succ p => simp [List.replicate, ih p]

theorem run_mass_loss_aux (pow10 : ℚ → ℚ) (hpos : ∀ x, 0 < pow10 x)
    (steps : List (ℚ × List (List ℚ))) :
    ∀ acc : List ℚ, (∀ st ∈ steps, 0 < st.1) →
      (∀ st ∈ steps, ∀ mdots ∈ st.2, acc.length ≤ mdots.length) →
      (steps.foldl (fun a st => timestep_mass_loss pow10 st.1 st.2 a) acc).length
          = acc.length ∧
        ∀ k, acc.getD k 0 ≤
          (steps.foldl (fun a st => timestep_mass_loss pow10 st.1 st.2 a) acc).getD k 0 := by
  induction steps with
  | nil => exact fun acc _ _ => ⟨rfl, fun k => le_refl _⟩
  | cons st sts ih =>
    intro acc hdt hlen
    have hdts : 0 < st.1 := hdt st (List.mem_cons_self _ _)
    have hl1 : ∀ mdots ∈ st.2, acc.length ≤ mdots.length := hlen st (List.mem_cons_self _ _)
    have hstep_len := timestep_mass_loss_length pow10 st.1 st.2 acc hl1
    have hstep_mono := timestep_mass_loss_mono pow10 hpos st.1 hdts st.2 acc hl1
    have hrest := ih (timestep_mass_loss pow10 st.1 st.2 acc)
      (fun s hs => hdt s (List.mem_cons_of_mem _ hs))
      (fun s hs md hmd => by rw [hstep_len]; exact hlen s (List.mem_cons_of_mem _ hs) md hmd)
    refine ⟨by rw [List.foldl_cons, hrest.1, hstep_len], fun k => ?_⟩
    rw [List.foldl_cons]
    exact le_trans (hstep_mono k) (hrest.2 k)

/-- Claim C10: the accumulator `time_total_mass_loss` starts at zero and only
grows: each (bright star, small star) pair contributes the strictly positive
increment `10 ** log10Mdot * dt` when `dt > 0`, each timestep is pointwise
nondecreasing, and after the whole run every entry is nonnegative.  `pow10`
models base-10 float exponentiation (always positive); `steps` carries, per
timestep, its `dt` and the estimated `log10(Mdot)` lists per bright star. -/
theorem run_mass_loss_spec (pow10 : ℚ → ℚ) (hpos : ∀ x, 0 < pow10 x)
    (steps : List (ℚ × List (List ℚ))) (n : ℕ)
    (hdt : ∀ st ∈ steps, 0 < st.1)
    (hlen : ∀ st ∈ steps, ∀ mdots ∈ st.2, n ≤ mdots.length) :
    (∀ dt mdot, 0 < dt → 0 < total_photoevap_mass_loss pow10 dt mdot) ∧
      (run_mass_loss pow10 steps n).length = n ∧
      (∀ k, 0 ≤ (run_mass_loss pow10 steps n).getD k 0) ∧
      (∀ st ∈ steps, ∀ acc : List ℚ,
        (∀ mdots ∈ st.2, acc.length ≤ mdots.length) →
        ∀ k, acc.getD k 0 ≤ (timestep_mass_loss pow10 st.1 st.2 acc).getD k 0) := by
  have hrep : (List.replicate n (0 : ℚ)).length = n := List.length_replicate n 0
  have haux := run_mass_loss_aux pow10 hpos steps (List.replicate n 0) hdt
    (fun st hst md hmd => by rw [hrep]; exact hlen st hst md hmd)
  refine ⟨fun dt mdot hdt0 => mul_pos (hpos mdot) hdt0, ?_, ?_, ?_⟩
  · rw [show run_mass_loss pow10 steps n
      = steps.foldl (fun a st => timestep_mass_loss pow10 st.1 st.2 a)
        (List.replicate n 0) from rfl, haux.1, hrep]
  · intro k
    have := haux.2 k
    rw [getD_replicate_zero n k] at this
    exact this
  · intro st hst acc hacc k
    exact timestep_mass_loss_mono pow10 hpos st.1 (hdt st hst) st.2 acc hacc k

/-- Witness for C10 with one timestep of `dt = 1`, one bright star and two
small stars. -/
theorem run_mass_loss_spec_witness :
    0 < total_photoevap_mass_loss (fun _ => 1) 1 2 ∧
      (run_mass_loss (fun _ => 1) [(1, [[2, 3]])] 2).length = 2 ∧
      0 ≤ (run_mass_loss (fun _ => 1) [(1, [[2, 3]])] 2).getD 0 0 :=
  ⟨(run_mass_loss_spec (fun _ => 1) (fun _ => by norm_num) [(1, [[2, 3]])] 2
      (by decide) (by decide)).1 1 2 (by norm_num),
    (run_mass_loss_spec (fun _ => 1) (fun _ => by norm_num) [(1, [[2, 3]])] 2
      (by decide) (by decide)).2.1,
    (run_mass_loss_spec (fun _ => 1) (fun _ => by norm_num) [(1, [[2, 3]])] 2
      (by decide) (by decide)).2.2.1 0⟩


theorem minWithIdx_cons_none {d : ℚ} {ds : List ℚ} (hm : minWithIdx ds = none) :
    minWithIdx (d :: ds) = some (d, 0) := by
  simp [minWithIdx, hm]

theorem minWithIdx_cons_some {d bv : ℚ} {ds : List ℚ} {bi : ℕ}
    (hm : minWithIdx ds = some (bv, bi)) :
    minWithIdx (d :: ds) =
      if d ≤ bv then some (d, 0) else some (bv, bi + 1) := by
  simp [minWithIdx, hm]

theorem minWithIdx_eq_none_iff {l : List ℚ} : minWithIdx l = none ↔ l = [] := by
  cases l with
  | nil => simp [minWithIdx]
  | cons d ds =>
    cases hm : minWithIdx ds with
    | none => simp [minWithIdx_cons_none hm]
    | some p =>
      rcases p with ⟨bv, bi⟩
      rw [minWithIdx_cons_some hm]
      split_ifs <;> simp

theorem minWithIdx_spec {l : List ℚ} {v : ℚ} {i : ℕ}
    (h : minWithIdx l = some (v, i)) :
    i < l.length ∧ l.getD i 0 = v ∧ ∀ m, m < l.length → v ≤ l.getD m 0 := by
  induction l generalizing v i with
  | nil => simp [minWithIdx] at h
  | cons d ds ih =>
    cases hm : minWithIdx ds with
    | none =>
      rw [minWithIdx_cons_none hm] at h
      simp only [Option.some.injEq, Prod.mk.injEq] at h
      obtain ⟨rfl, rfl⟩ := h.symm
      have hds : ds = [] := minWithIdx_eq_none_iff.mp hm
      subst hds
      refine ⟨by simp, by simp, ?_⟩
      intro m hm2
      simp only [List.length_cons, List.length_nil] at hm2
      have hz : m = 0 := by omega
      simp [hz]
    | some p =>
      rcases p with ⟨bv, bi⟩
      rw [minWithIdx_cons_some hm] at h
      have ihs := ih hm
      by_cases hd : d ≤ bv
      · rw [if_pos hd] at h
        simp only [Option.some.injEq, Prod.mk.injEq] at h
        obtain ⟨rfl, rfl⟩ := h.symm
        refine ⟨by simp, by simp, ?_⟩
        intro m hm2
        cases m with
        | zero => simp
        | succ p2 =>
          simp only [List.getD_cons_succ]
          exact le_trans hd (ihs.2.2 p2 (by simpa using hm2))
      · rw [if_neg hd] at h
        simp only [Option.some.injEq, Prod.mk.injEq] at h
        obtain ⟨rfl, rfl⟩ := h.symm
        refine ⟨by simpa using Nat.succ_lt_succ ihs.1, by simpa using ihs.2.1, ?_⟩
        intro m hm2
        cases m with
        | zero =>
          simp only [List.getD_cons_zero]
          linarith [not_le.mp hd]
        | succ p2 => simpa using ihs.2.2 p2 (by simpa using hm2)

theorem foldl_set_length {β : Type} (g : β → ℕ) (h2 : β → ℚ) (xs : List β) :
    ∀ init : List ℚ,
      (xs.foldl (fun acc x => acc.set (g x) (h2 x)) init).length = init.length := by
  induction xs with
  | nil => intro init; rfl
  | cons x xs ih =>
    intro init
    rw [List.foldl_cons, ih, List.length_set]

theorem mdot_fill_length (mdotcol : List ℚ) (I : List ℕ) (init : List ℚ) :
    (mdot_fill mdotcol I init).length = init.length :=
  foldl_set_length (fun x => firstIdxOf I x) (fun x => mdotcol.getD x 0) I init

theorem indices_list_inv {grid : List GridRow} {xi : ℚ × ℚ × ℚ × ℚ} {I : List ℕ}
    (h : indices_list grid xi = some I) :
    ∃ p1 p2 p3 p4 : ℕ × ℕ,
      find_indices (grid_stellar_masses grid) xi.1 = some p1 ∧
        find_indices (grid_FUV grid) xi.2.1 = some p2 ∧
        find_indices (grid_disk_mass grid) xi.2.2.1 = some p3 ∧
        find_indices (grid_disk_radius grid) xi.2.2.2 = some p4 ∧
        I = [p1.1, p1.2, p2.1, p2.2, p3.1, p3.2, p4.1, p4.2] := by
  unfold indices_list at h
  simp only [Option.bind_eq_some, Option.map_eq_some'] at h
  obtain ⟨p1, h1, p2, h2, p3, h3, p4, h4, hIeq⟩ := h
  exact ⟨p1, p2, p3, p4, h1, h2, h3, h4, hIeq.symm⟩

theorem indices_list_length {grid : List GridRow} {xi : ℚ × ℚ × ℚ × ℚ}
    {I : List ℕ} (h : indices_list grid xi = some I) : I.length = 8 := by
  rcases indices_list_inv h with ⟨p1, p2, p3, p4, -, -, -, -, rfl⟩
  rfl

/-- Claim C1 (code bug): the fill loop
`for x in indices_list: Mdot_values[indices_list.index(x)] = grid_log10Mdot[x]`
writes through Python `list.index`, which returns the first occurrence, so
when the same row index occurs at more than one position the later positions
of `Mdot_values` are never written and keep the uninitialized buffer
contents.  On the two-row grid `exGrid2` with the below-range query
`exQuery2`, all eight bracketing indices are 0; modelling the uninitialized
buffer as zeros, position 1 holds 0 instead of `grid_log10Mdot[0] = -8` as
the claim (and the spec) require. -/
theorem Mdot_values_stale_on_duplicates :
    indices_list exGrid2 exQuery2 = some [0, 0, 0, 0, 0, 0, 0, 0] ∧
      Mdot_values exGrid2 [0, 0, 0, 0, 0, 0, 0, 0] (List.replicate 8 0)
        = [-8, 0, 0, 0, 0, 0, 0, 0] ∧
      (Mdot_values exGrid2 [0, 0, 0, 0, 0, 0, 0, 0] (List.replicate 8 0)).getD 1 0
        ≠ (grid_log10Mdot exGrid2).getD
            (([0, 0, 0, 0, 0, 0, 0, 0] : List ℕ).getD 1 0) 0 :=
  ⟨by decide, by decide, by decide⟩

/-- Claim C3: the estimator's output equals exactly one of the 8 candidate
values of the locally built sub-grid, namely the value at a position whose
sub-grid row minimizes the squared (hence also the Euclidean) 4-D distance
to the query point over stellar mass, FUV, disk mass and disk radius; it is
never blended from several candidates. -/
theorem photoevap_Mdot_nearest (grid : List GridRow) (xi : ℚ × ℚ × ℚ × ℚ)
    (init : List ℚ) (hinit : init.length = 8) (I : List ℕ) (o : ℚ)
    (hI : indices_list grid xi = some I)
    (ho : photoevap_Mdot grid xi init = some o) :
    ∃ k, k < (subgrid grid I).length ∧
      o = (Mdot_values grid I init).getD k 0 ∧
      o ∈ Mdot_values grid I init ∧
      ∀ m, m < (subgrid grid I).length →
        sqDist ((subgrid grid I).getD k (0, 0, 0, 0)) xi
          ≤ sqDist ((subgrid grid I).getD m (0, 0, 0, 0)) xi := by
  simp only [photoevap_Mdot, hI] at ho
  cases hmin : minWithIdx ((subgrid grid I).map (fun p => sqDist p xi)) with
  | none => simp [griddata_nearest, hmin] at ho
  | some p =>
    rcases p with ⟨bv, bi⟩
    simp only [griddata_nearest, hmin, Option.some.injEq] at ho
    rcases minWithIdx_spec hmin with ⟨hbi, hval, hmino⟩
    rw [List.length_map] at hbi
    have hsub8 : (subgrid grid I).length = 8 := by
      rw [subgrid, List.length_map, indices_list_length hI]
    have hvals8 : (Mdot_values grid I init).length = 8 := by
      rw [Mdot_values, mdot_fill_length, hinit]
    refine ⟨bi, hbi, ho.symm, ?_, ?_⟩
    · rw [← ho]
      exact getD_mem (by omega) 0
    · intro m hmlen
      have h1 : ((subgrid grid I).map (fun p => sqDist p xi)).getD bi 0
          = sqDist ((subgrid grid I).getD bi (0, 0, 0, 0)) xi :=
        getD_map (fun p => sqDist p xi) (subgrid grid I) hbi (0, 0, 0, 0) 0
      have h2 : ((subgrid grid I).map (fun p => sqDist p xi)).getD m 0
          = sqDist ((subgrid grid I).getD m (0, 0, 0, 0)) xi :=
        getD_map (fun p => sqDist p xi) (subgrid grid I) hmlen (0, 0, 0, 0) 0
      have h3 := hmino m (by rwa [List.length_map])
      rw [h1] at hval
      rw [h2] at h3
      rw [hval]
      exact h3

/-- Witness for C3 on the one-row grid `exGrid1`: the estimate is the single
grid value -8, a member of the candidate vector at minimal distance. -/
theorem photoevap_Mdot_nearest_witness :
    ∃ k, k < (subgrid exGrid1 [0, 0, 0, 0, 0, 0, 0, 0]).length ∧
      (-8 : ℚ) = (Mdot_values exGrid1 [0, 0, 0, 0, 0, 0, 0, 0]
        (List.replicate 8 0)).getD k 0 ∧
      (-8 : ℚ) ∈ Mdot_values exGrid1 [0, 0, 0, 0, 0, 0, 0, 0] (List.replicate 8 0) ∧
      ∀ m, m < (subgrid exGrid1 [0, 0, 0, 0, 0, 0, 0, 0]).length →
        sqDist ((subgrid exGrid1 [0, 0, 0, 0, 0, 0, 0, 0]).getD k (0, 0, 0, 0)) exQuery1
          ≤ sqDist ((subgrid exGrid1 [0, 0, 0, 0, 0, 0, 0, 0]).getD m (0, 0, 0, 0)) exQuery1 :=
  photoevap_Mdot_nearest exGrid1 exQuery1 (List.replicate 8 0) (by decide)
    [0, 0, 0, 0, 0, 0, 0, 0] (-8) (by decide)
    (by norm_num [photoevap_Mdot, indices_list, find_indices, value_below,
      value_above, npmax, npmin, firstIdxOf, grid_stellar_masses, grid_FUV,
      grid_disk_mass, grid_disk_radius, exGrid1, exQuery1, subgrid,
      Mdot_values, mdot_fill, grid_log10Mdot, FRIED_params, griddata_nearest,
      minWithIdx, sqDist, List.filter, List.replicate])

theorem foldl_congr_mem {α β : Type} (xs : List β) (f g : α → β → α) (b : α)
    (h : ∀ a : α, ∀ y ∈ xs, f a y = g a y) : xs.foldl f b = xs.foldl g b := by
  induction xs generalizing b with
  | nil => rfl
  | cons x xs ih =>
    rw [List.foldl_cons, List.foldl_cons, h b x (List.mem_cons_self _ _)]
    exact ih _ (fun a y hy => h a y (List.mem_cons_of_mem _ hy))

theorem foldl_set_shift {β : Type} (g : β → ℕ) (v : β → ℚ) (xs : List β) :
    ∀ (c : ℚ) (acc : List ℚ),
      xs.foldl (fun a y => a.set (g y + 1) (v y)) (c :: acc)
        = c :: xs.foldl (fun a y => a.set (g y) (v y)) acc := by
  induction xs with
  | nil => intro c acc; rfl
  | cons x xs ih =>
    intro c acc
    rw [List.foldl_cons, List.foldl_cons,
      show (c :: acc).set (g x + 1) (v x) = c :: acc.set (g x) (v x) from rfl]
    exact ih c _

theorem mdot_fill_cons {mdotcol : List ℚ} {x : ℕ} {xs : List ℕ} {a : ℚ}
    {rest : List ℚ} (hx : x ∉ xs) :
    mdot_fill mdotcol (x :: xs) (a :: rest)
      = mdotcol.getD x 0 :: mdot_fill mdotcol xs rest := by
  unfold mdot_fill
  rw [List.foldl_cons]
  have h0 : firstIdxOf (x :: xs) x = 0 := by simp [firstIdxOf]
  rw [h0, show (a :: rest).set 0 (mdotcol.getD x 0)
    = mdotcol.getD x 0 :: rest from rfl]
  have hcongr := foldl_congr_mem xs
    (fun acc y => acc.set (firstIdxOf (x :: xs) y) (mdotcol.getD y 0))
    (fun acc y => acc.set (firstIdxOf xs y + 1) (mdotcol.getD y 0))
    (mdotcol.getD x 0 :: rest)
    (by
      intro a2 y hy
      have hne : ¬x = y := fun he => hx (he ▸ hy)
      simp [firstIdxOf, hne])
  rw [hcongr]
  exact foldl_set_shift (fun y => firstIdxOf xs y) (fun y => mdotcol.getD y 0)
    xs (mdotcol.getD x 0) rest

theorem mdot_fill_nodup {mdotcol : List ℚ} {I : List ℕ} (hnd : I.Nodup) :
    ∀ init : List ℚ, I.length ≤ init.length →
      mdot_fill mdotcol I init
        = I.map (fun x => mdotcol.getD x 0) ++ init.drop I.length := by
  induction I with
  | nil => intro init _; simp [mdot_fill]
  | cons x xs ih =>
    intro init hlen
    rcases List.nodup_cons.mp hnd with ⟨hx, hxs⟩
    cases init with
    | nil => simp at hlen
    | cons a rest =>
      rw [mdot_fill_cons hx, ih hxs rest (by simpa using hlen)]
      simp

theorem selected_row_eq {grid grid2 : List GridRow} (hperm : List.Perm grid grid2)
    (col : GridRow → ℚ) (hnd : (grid.map col).Nodup) {v : ℚ}
    (hv : v ∈ grid.map col) :
    grid.getD (firstIdxOf (grid.map col) v) default
      = grid2.getD (firstIdxOf (grid2.map col) v) default := by
  have hpermcol : List.Perm (grid.map col) (grid2.map col) := hperm.map col
  have hv2 : v ∈ grid2.map col := hpermcol.mem_iff.mp hv
  have hi1 : firstIdxOf (grid.map col) v < (grid.map col).length :=
    firstIdxOf_lt_length hv
  have hi2 : firstIdxOf (grid2.map col) v < (grid2.map col).length :=
    firstIdxOf_lt_length hv2
  rw [List.length_map] at hi1 hi2
  have hc1 : col (grid.getD (firstIdxOf (grid.map col) v) default) = v := by
    have hg := getD_firstIdxOf hv (0 : ℚ)
    rwa [getD_map col grid hi1 default 0] at hg
  have hc2 : col (grid2.getD (firstIdxOf (grid2.map col) v) default) = v := by
    have hg := getD_firstIdxOf hv2 (0 : ℚ)
    rwa [getD_map col grid2 hi2 default 0] at hg
  have hm1 : grid.getD (firstIdxOf (grid.map col) v) default ∈ grid :=
    getD_mem hi1 default
  have hm2 : grid2.getD (firstIdxOf (grid2.map col) v) default ∈ grid :=
    hperm.mem_iff.mpr (getD_mem hi2 default)
  exact List.inj_on_of_nodup_map hnd hm1 hm2 (by rw [hc1, hc2])

theorem find_indices_perm_rows {grid grid2 : List GridRow}
    (hperm : List.Perm grid grid2) (col : GridRow → ℚ)
    (hnd : (grid.map col).Nodup) {v : ℚ} {i j : ℕ}
    (h : find_indices (grid.map col) v = some (i, j)) :
    ∃ i2 j2, find_indices (grid2.map col) v = some (i2, j2) ∧
      i < grid.length ∧ j < grid.length ∧ i2 < grid2.length ∧ j2 < grid2.length ∧
      grid.getD i default = grid2.getD i2 default ∧
      grid.getD j default = grid2.getD j2 default := by
  rcases find_indices_inv h with ⟨vb, va, hvb, hva, rfl, rfl⟩
  have hpermcol := hperm.map col
  have hvb2 : value_below (grid2.map col) v = some vb := by
    rw [← value_below_perm hpermcol v]; exact hvb
  have hva2 : value_above (grid2.map col) v = some va := by
    rw [← value_above_perm hpermcol v]; exact hva
  have hfi2 : find_indices (grid2.map col) v
      = some (firstIdxOf (grid2.map col) vb, firstIdxOf (grid2.map col) va) := by
    simp [find_indices, hvb2, hva2]
  have hvbmem := value_below_mem hvb
  have hvamem := value_above_mem hva
  have hvbmem2 := value_below_mem hvb2
  have hvamem2 := value_above_mem hva2
  refine ⟨_, _, hfi2, ?_, ?_, ?_, ?_, selected_row_eq hperm col hnd hvbmem,
    selected_row_eq hperm col hnd hvamem⟩
  · have hl := firstIdxOf_lt_length hvbmem; rwa [List.length_map] at hl
  · have hl := firstIdxOf_lt_length hvamem; rwa [List.length_map] at hl
  · have hl := firstIdxOf_lt_length hvbmem2; rwa [List.length_map] at hl
  · have hl := firstIdxOf_lt_length hvamem2; rwa [List.length_map] at hl

set_option maxHeartbeats 1000000 in
/-- Claim C5 amended: row-order invariance of the Mass-Loss Estimator holds
when no two rows share a value in any of the four parameter columns and the
eight bracketing indices are pairwise distinct; permuting the grid rows then
yields the same candidate sub-grid rows, the same Mdot values (for any
uninitialized-buffer contents on either side) and the same estimate.
Without the first condition ties are resolved by row position and the
candidate set can change under permutation; without the second the Mdot
vector reads uninitialized memory. -/
theorem estimator_perm_invariant (grid grid2 : List GridRow)
    (hperm : List.Perm grid grid2)
    (hm : (grid.map (fun r => r.stellar_mass)).Nodup)
    (hf : (grid.map (fun r => r.FUV)).Nodup)
    (hd : (grid.map (fun r => r.disk_mass)).Nodup)
    (hr : (grid.map (fun r => r.disk_radius)).Nodup)
    (xi : ℚ × ℚ × ℚ × ℚ) (I I2 : List ℕ)
    (hI : indices_list grid xi = some I)
    (hI2 : indices_list grid2 xi = some I2)
    (hnd : I.Nodup)
    (init init2 : List ℚ) (h8 : init.length = 8) (h82 : init2.length = 8) :
    subgrid grid I = subgrid grid2 I2 ∧
      Mdot_values grid I init = Mdot_values grid2 I2 init2 ∧
      photoevap_Mdot grid xi init = photoevap_Mdot grid2 xi init2 := by
  rcases indices_list_inv hI with
    ⟨⟨a1, b1⟩, ⟨a2, b2⟩, ⟨a3, b3⟩, ⟨a4, b4⟩, h1, h2, h3, h4, rfl⟩
  rcases indices_list_inv hI2 with
    ⟨⟨c1, d1⟩, ⟨c2, d2⟩, ⟨c3, d3⟩, ⟨c4, d4⟩, k1, k2, k3, k4, rfl⟩
  dsimp only at hI hI2 hnd ⊢
  simp only [grid_stellar_masses] at h1 k1
  simp only [grid_FUV] at h2 k2
  simp only [grid_disk_mass] at h3 k3
  simp only [grid_disk_radius] at h4 k4
  obtain ⟨i2, j2, hfi1, hga1, hgb1, hgc1, hgd1, R1, R2⟩ :=
    find_indices_perm_rows hperm (fun r => r.stellar_mass) hm h1
  rw [k1] at hfi1
  simp only [Option.some.injEq, Prod.mk.injEq] at hfi1
  obtain ⟨rfl, rfl⟩ := hfi1
  obtain ⟨i2, j2, hfi2, hga2, hgb2, hgc2, hgd2, R3, R4⟩ :=
    find_indices_perm_rows hperm (fun r => r.FUV) hf h2
  rw [k2] at hfi2
  simp only [Option.some.injEq, Prod.mk.injEq] at hfi2
  obtain ⟨rfl, rfl⟩ := hfi2
  obtain ⟨i2, j2, hfi3, hga3, hgb3, hgc3, hgd3, R5, R6⟩ :=
    find_indices_perm_rows hperm (fun r => r.disk_mass) hd h3
  rw [k3] at hfi3
  simp only [Option.some.injEq, Prod.mk.injEq] at hfi3
  obtain ⟨rfl, rfl⟩ := hfi3
  obtain ⟨i2, j2, hfi4, hga4, hgb4, hgc4, hgd4, R7, R8⟩ :=
    find_indices_perm_rows hperm (fun r => r.disk_radius) hr h4
  rw [k4] at hfi4
  simp only [Option.some.injEq, Prod.mk.injEq] at hfi4
  obtain ⟨rfl, rfl⟩ := hfi4
  have hsub : subgrid grid [a1, b1, a2, b2, a3, b3, a4, b4]
      = subgrid grid2 [c1, d1, c2, d2, c3, d3, c4, d4] := by
    simp only [subgrid, List.map_cons, List.map_nil, R1, R2, R3, R4, R5, R6, R7, R8]
  have hgridnd : grid.Nodup := List.Nodup.of_map _ hm
  have hbound : ∀ x ∈ [a1, b1, a2, b2, a3, b3, a4, b4], x < grid.length := by
    intro x hx
    simp only [List.mem_cons, List.not_mem_nil, or_false] at hx
    rcases hx with rfl | rfl | rfl | rfl | rfl | rfl | rfl | rfl
    exacts [hga1, hgb1, hga2, hgb2, hga3, hgb3, hga4, hgb4]
  have hrowsnd :
      (([a1, b1, a2, b2, a3, b3, a4, b4] : List ℕ).map
        (fun x => grid.getD x default)).Nodup := by
    refine List.Nodup.map_on ?_ hnd
    intro x hx y hy hxy
    exact getD_inj_of_nodup hgridnd (hbound x hx) (hbound y hy) default hxy
  have hrowseq :
      (([a1, b1, a2, b2, a3, b3, a4, b4] : List ℕ).map
          (fun x => grid.getD x default))
        = (([c1, d1, c2, d2, c3, d3, c4, d4] : List ℕ).map
          (fun x => grid2.getD x default)) := by
    simp only [List.map_cons, List.map_nil, R1, R2, R3, R4, R5, R6, R7, R8]
  have hnd2 : ([c1, d1, c2, d2, c3, d3, c4, d4] : List ℕ).Nodup := by
    refine List.Nodup.of_map (fun x => grid2.getD x default) ?_
    rw [← hrowseq]
    exact hrowsnd
  have M1 : (grid_log10Mdot grid).getD a1 0 = (grid_log10Mdot grid2).getD c1 0 := by
    rw [grid_log10Mdot, grid_log10Mdot, getD_map _ grid hga1 default 0,
      getD_map _ grid2 hgc1 default 0, R1]
  have M2 : (grid_log10Mdot grid).getD b1 0 = (grid_log10Mdot grid2).getD d1 0 := by
    rw [grid_log10Mdot, grid_log10Mdot, getD_map _ grid hgb1 default 0,
      getD_map _ grid2 hgd1 default 0, R2]
  have M3 : (grid_log10Mdot grid).getD a2 0 = (grid_log10Mdot grid2).getD c2 0 := by
    rw [grid_log10Mdot, grid_log10Mdot, getD_map _ grid hga2 default 0,
      getD_map _ grid2 hgc2 default 0, R3]
  have M4 : (grid_log10Mdot grid).getD b2 0 = (grid_log10Mdot grid2).getD d2 0 := by
    rw [grid_log10Mdot, grid_log10Mdot, getD_map _ grid hgb2 default 0,
      getD_map _ grid2 hgd2 default 0, R4]
  have M5 : (grid_log10Mdot grid).getD a3 0 = (grid_log10Mdot grid2).getD c3 0 := by
    rw [grid_log10Mdot, grid_log10Mdot, getD_map _ grid hga3 default 0,
      getD_map _ grid2 hgc3 default 0, R5]
  have M6 : (grid_log10Mdot grid).getD b3 0 = (grid_log10Mdot grid2).getD d3 0 := by
    rw [grid_log10Mdot, grid_log10Mdot, getD_map _ grid hgb3 default 0,
      getD_map _ grid2 hgd3 default 0, R6]
  have M7 : (grid_log10Mdot grid).getD a4 0 = (grid_log10Mdot grid2).getD c4 0 := by
    rw [grid_log10Mdot, grid_log10Mdot, getD_map _ grid hga4 default 0,
      getD_map _ grid2 hgc4 default 0, R7]
  have M8 : (grid_log10Mdot grid).getD b4 0 = (grid_log10Mdot grid2).getD d4 0 := by
    rw [grid_log10Mdot, grid_log10Mdot, getD_map _ grid hgb4 default 0,
      getD_map _ grid2 hgd4 default 0, R8]
  have hdrop1 : init.drop ([a1, b1, a2, b2, a3, b3, a4, b4] : List ℕ).length = [] :=
    List.drop_eq_nil_of_le (by simp [h8])
  have hdrop2 : init2.drop ([c1, d1, c2, d2, c3, d3, c4, d4] : List ℕ).length = [] :=
    List.drop_eq_nil_of_le (by simp [h82])
  have hMdot : Mdot_values grid [a1, b1, a2, b2, a3, b3, a4, b4] init
      = Mdot_values grid2 [c1, d1, c2, d2, c3, d3, c4, d4] init2 := by
    rw [Mdot_values, Mdot_values, mdot_fill_nodup hnd init (by simp [h8]),
      mdot_fill_nodup hnd2 init2 (by simp [h82]), hdrop1, hdrop2]
    simp only [List.map_cons, List.map_nil, List.append_nil, M1, M2, M3, M4,
      M5, M6, M7, M8]
  refine ⟨hsub, hMdot, ?_⟩
  simp only [photoevap_Mdot, hI, hI2]
  rw [hsub, hMdot]

/-- Counterexample to claim C5 as stated: the estimator is not invariant to
row order of the FRIED grid in general.  In `exGrid3` two rows share their
stellar-mass (and disk-mass and disk-radius) column values; `find_indices`
resolves the tie to the first matching row, so after swapping the first two
rows the candidate sub-grid contains the 4-D point (1, 20, 5, 50), which the
original candidate sub-grid does not contain: the candidate 8-point sets (as
sets of 4-D points, with or without their attached mass-loss values) differ. -/
theorem estimator_not_perm_invariant :
    List.Perm exGrid3 exGrid3Swapped ∧
      indices_list exGrid3 exQuery3 = some [0, 2, 0, 2, 0, 2, 0, 2] ∧
      indices_list exGrid3Swapped exQuery3 = some [0, 2, 1, 2, 0, 2, 0, 2] ∧
      ((1 : ℚ), (20 : ℚ), (5 : ℚ), (50 : ℚ))
          ∈ subgrid exGrid3Swapped [0, 2, 1, 2, 0, 2, 0, 2] ∧
      ((1 : ℚ), (20 : ℚ), (5 : ℚ), (50 : ℚ))
          ∉ subgrid exGrid3 [0, 2, 0, 2, 0, 2, 0, 2] :=
  ⟨List.Perm.swap _ _ _, by decide, by decide, by decide, by decide⟩

/-- Witness for the amended C5 on the eight-row grid `exGrid8` (pairwise
distinct column values, pairwise distinct bracketing indices) and the swap
of its first two rows, with two different uninitialized-buffer contents. -/
theorem estimator_perm_invariant_witness :
    subgrid exGrid8 [0, 1, 2, 3, 4, 5, 6, 7]
        = subgrid exGrid8Swapped [1, 0, 2, 3, 4, 5, 6, 7] ∧
      Mdot_values exGrid8 [0, 1, 2, 3, 4, 5, 6, 7] (List.replicate 8 0)
        = Mdot_values exGrid8Swapped [1, 0, 2, 3, 4, 5, 6, 7]
            (List.replicate 8 (-3)) ∧
      photoevap_Mdot exGrid8 exQuery8 (List.replicate 8 0)
        = photoevap_Mdot exGrid8Swapped exQuery8 (List.replicate 8 (-3)) :=
  estimator_perm_invariant exGrid8 exGrid8Swapped (List.Perm.swap _ _ _)
    (by decide) (by decide) (by decide) (by decide) exQuery8
    [0, 1, 2, 3, 4, 5, 6, 7] [1, 0, 2, 3, 4, 5, 6, 7]
    (by decide) (by decide) (by decide)
    (List.replicate 8 0) (List.replicate 8 (-3)) (by decide) (by decide)
